import Mathlib

/-!
Shallow embedding of the Tic-Tac-Toe game core
(src/my-tic-tac-toe-app/script.js) and proofs of the specified
properties of its rules engine and opponent policy.

The JavaScript source keeps the whole game in a mutable module-level
object `gameState`; here that object is the structure `GameState` and
every mutating function becomes a function from the old state to the
new one.  Cells hold the strings `''`, `'X'`, `'O'` in the source;
they become the inductive type `Cell`.  DOM updates, focus handling
and the confetti animation are presentation-only and are not part of
the embedding.  The computer's delayed move (`makeComputerMove`, a
`setTimeout` callback) is scheduled asynchronously by the UI layer;
the synchronous state mutation performed by `makeMove` is what is
embedded here, and the sources of randomness (`Math.random()`) in
`findBestMove` are modelled by an extra natural-number parameter that
selects an element of the candidate list.
-/

/-- A cell of the board: `''`, `'X'` or `'O'` in the source. -/
inductive Cell where
  | empty
  | x
  | o
deriving DecidableEq

/-- A player's mark, `gameState.currentPlayer` in the source: `'X'` or `'O'`. -/
inductive Player where
  | X
  | O
deriving DecidableEq

/-- The cell value written when a player moves. -/
def Player.mark : Player → Cell
  | Player.X => Cell.x
  | Player.O => Cell.o

/-- `gameState.mode` in the source: `'two-player'` or `'vs-computer'`. -/
inductive Mode where
  | twoPlayer
  | vsComputer
deriving DecidableEq

/-- The board: the source's `gameState.board`, an array of 9 cells
in row-major order. -/
abbrev Board := List Cell

/-- The mutable module-level `gameState` object of the source
(`isComputerTurn` is a pure UI re-entrancy guard and `mode` only
selects whether the UI schedules a computer reply; both are carried
along unchanged by the core transitions). -/
structure GameState where
  board : Board
  currentPlayer : Player
  gameActive : Bool
  winner : Option Player
  mode : Option Mode
  isComputerTurn : Bool
deriving DecidableEq

/-- The initial value of `gameState` in the source (before a mode is chosen). -/
def initialState : GameState :=
  { board := List.replicate 9 Cell.empty
    currentPlayer := Player.X
    gameActive := true
    winner := none
    mode := none
    isComputerTurn := false }

/-- `WINNING_COMBINATIONS`: 3 rows top-to-bottom, 3 columns
left-to-right, diagonal 0-4-8, diagonal 2-4-6, in the source's order. -/
def WINNING_COMBINATIONS : List (Nat × Nat × Nat) :=
  [(0, 1, 2), (3, 4, 5), (6, 7, 8),
   (0, 3, 6), (1, 4, 7), (2, 5, 8),
   (0, 4, 8), (2, 4, 6)]

/-- The test in the body of `checkWin`'s loop:
`board[a] && board[a] === board[b] && board[a] === board[c]`
(a cell is truthy exactly when it is not `''`).  Out-of-range reads
yield the JS `undefined`, which is falsy; all combination indices are
in range for a 9-cell board, so `getD` with default `empty` is faithful. -/
def comboWins (b : Board) (t : Nat × Nat × Nat) : Bool :=
  let va := b.getD t.1 Cell.empty
  let vb := b.getD t.2.1 Cell.empty
  let vc := b.getD t.2.2 Cell.empty
  va != Cell.empty && va == vb && va == vc

/-- `checkWin()`: returns the first winning combination, or `null`. -/
def checkWin (b : Board) : Option (Nat × Nat × Nat) :=
  WINNING_COMBINATIONS.find? (comboWins b)

/-- `checkDraw()`: `board.every(cell => cell !== '')`. -/
def checkDraw (b : Board) : Bool :=
  b.all (fun c => c != Cell.empty)

/-- `switchPlayer()` without its turn-indicator DOM update. -/
def switchPlayer (s : GameState) : GameState :=
  { s with currentPlayer := if s.currentPlayer = Player.X then Player.O else Player.X }

/-- `handleWin(winningCells)` without its DOM/confetti effects:
sets `gameActive = false` and `winner = currentPlayer`. -/
def handleWin (s : GameState) : GameState :=
  { s with gameActive := false, winner := some s.currentPlayer }

/-- `handleDraw()` without its DOM effects: sets `gameActive = false`
(and leaves `winner` untouched). -/
def handleDraw (s : GameState) : GameState :=
  { s with gameActive := false }

/-- The result a `makeMove` call signals to its caller, following the
spec's `MoveResult` taxonomy: a rejected move is the early return at
the top of `makeMove`, a win/draw is the corresponding handler call,
and otherwise the turn passes. -/
inductive MoveResult where
  | invalidMove
  | win (line : Nat × Nat × Nat)
  | draw
  | cont
deriving DecidableEq

/-- Reading `gameState.board[index]` for an arbitrary (possibly
out-of-range) integer index: a JS array access outside `0..length-1`
yields `undefined`, modelled as `none`. -/
def cellAt (b : Board) (i : Int) : Option Cell :=
  if 0 ≤ i then b.get? i.toNat else none

/-- `makeMove(index, cell)` without its DOM updates and without the
asynchronous `makeComputerMove` scheduling.  The guard is the source's
`if (!gameState.gameActive || gameState.board[index] !== '') return;`
— note that an out-of-range index reads `undefined !== ''` and is
rejected by the same test. -/
def makeMove (s : GameState) (index : Int) : GameState × MoveResult :=
  if s.gameActive = false ∨ cellAt s.board index ≠ some Cell.empty then
    (s, MoveResult.invalidMove)
  else
    let s1 : GameState := { s with board := s.board.set index.toNat s.currentPlayer.mark }
    match checkWin s1.board with
    | some line => (handleWin s1, MoveResult.win line)
    | none =>
      if checkDraw s1.board then
        (handleDraw s1, MoveResult.draw)
      else
        (switchPlayer s1, MoveResult.cont)

/-- `resetGameState()` without its DOM resets: board all-empty,
X to move, game active, no winner, computer-turn flag cleared
(`mode` is not touched by the source function). -/
def resetGameState (s : GameState) : GameState :=
  { s with board := List.replicate 9 Cell.empty
           currentPlayer := Player.X
           gameActive := true
           winner := none
           isComputerTurn := false }

/-- The index list built at the top of `findBestMove`:
`board.map((val, idx) => val === '' ? idx : -1).filter(idx => idx !== -1)`,
i.e. the indices of the empty cells in ascending order.  The
second parameter is the running index of the `map` callback. -/
def emptyIndicesAux : Board → Nat → List Nat
  | [], _ => []
  | c :: rest, i =>
    if c = Cell.empty then i :: emptyIndicesAux rest (i + 1)
    else emptyIndicesAux rest (i + 1)

/-- `emptyIndices` of `findBestMove` (see `emptyIndicesAux`). -/
def emptyIndices (b : Board) : List Nat :=
  emptyIndicesAux b 0

/-- One of the two hypothetical-placement loops of `findBestMove`
(steps 1 and 2 differ only in the mark placed): for each index, set
the cell to `mark`, call `checkWin()`, restore the cell to `''`, and
return the index on a hit.  The board is threaded explicitly so that
the mutation and its restoration are part of the model. -/
def tryPlaceLoop (mark : Cell) : Board → List Nat → Board × Option Nat
  | b, [] => (b, none)
  | b, i :: rest =>
    let b1 := b.set i mark
    if (checkWin b1).isSome then
      (b1.set i Cell.empty, some i)
    else
      tryPlaceLoop mark (b1.set i Cell.empty) rest

/-- `findBestMove()`.  Returns the (possibly mutated-and-restored)
board together with the chosen index; `-1` is the source's sentinel
for "no empty cell".  `r` stands in for the `Math.random()` draws:
`Math.floor(Math.random() * l.length)` is a uniformly random position
of the candidate list `l`, modelled as `r % l.length`. -/
def findBestMove (b : Board) (r : Nat) : Board × Int :=
  let empties := emptyIndices b
  if empties.isEmpty then (b, -1)
  else
    match tryPlaceLoop Cell.o b empties with
    | (b1, some i) => (b1, (i : Int))
    | (b1, none) =>
      match tryPlaceLoop Cell.x b1 empties with
      | (b2, some i) => (b2, (i : Int))
      | (b2, none) =>
        if empties.contains 4 then (b2, 4)
        else
          let corners := [0, 2, 6, 8].filter (fun c => empties.contains c)
          if corners.isEmpty = false then
            (b2, (corners.getD (r % corners.length) 0 : Int))
          else
            let edges := [1, 3, 5, 7].filter (fun e => empties.contains e)
            if edges.isEmpty = false then
              (b2, (edges.getD (r % edges.length) 0 : Int))
            else
              (b2, (empties.getD (r % empties.length) 0 : Int))

/-- The states a session can be driven to through the core API:
the initial state, any `makeMove` call (accepted or rejected), and
`resetGameState` (called by `restartGame`, `selectMode` and
`showModeSelection`).  The computer's reply applies the same
board/win/draw/switch mutation as `makeMove` on the index chosen by
`findBestMove`, so it is covered by the `move` step. -/
inductive Reachable : GameState → Prop
  | init : Reachable initialState
  | move (s : GameState) (i : Int) : Reachable s → Reachable (makeMove s i).1
  | reset (s : GameState) : Reachable s → Reachable (resetGameState s)

/-- Iterated `makeMove` where every call must be accepted and
non-terminal (result `cont`); `none` as soon as one is not. -/
def contRun : GameState → List Int → Option GameState
  | s, [] => some s
  | s, i :: rest =>
    match makeMove s i with
    | (s1, MoveResult.cont) => contRun s1 rest
    | _ => none

/-! ### Generic helpers -/

/-- Writing back the value a cell already holds leaves the list unchanged. -/
theorem set_get?_self (b : Board) (i : Nat) (c : Cell) (h : b.get? i = some c) :
    b.set i c = b := by
  induction b generalizing i with
  | nil => simp at h
  | cons hd tl ih =>
    cases i with
    | zero =>
      simp at h
      simp [List.set, h]
    | succ n =>
      have h2 : tl.get? n = some c := by simpa using h
      simp [List.set, ih n h2]

/-- `l[r % l.length]` is an element of a nonempty `l`. -/
theorem getD_mod_mem (l : List Nat) (h : l ≠ []) (r : Nat) :
    l.getD (r % l.length) 0 ∈ l := by
  have hlen : r % l.length < l.length := Nat.mod_lt _ (List.length_pos.mpr h)
  rw [List.getD_eq_getElem?_getD, List.getElem?_eq_getElem hlen]
  exact List.getElem_mem hlen

/-! ### The empty-index list of `findBestMove` -/

theorem mem_emptyIndicesAux (b : Board) (k j : Nat) :
    j ∈ emptyIndicesAux b k ↔ ∃ m, b.get? m = some Cell.empty ∧ j = m + k := by
  induction b generalizing k with
  | nil => simp [emptyIndicesAux]
  | cons hd tl ih =>
    by_cases hc : hd = Cell.empty
    · subst hc
      rw [emptyIndicesAux, if_pos rfl]
      simp only [List.mem_cons, ih (k + 1)]
      constructor
      · rintro (rfl | ⟨m, hm, rfl⟩)
        · exact ⟨0, by simp, by omega⟩
        · exact ⟨m + 1, by simpa using hm, by omega⟩
      · rintro ⟨m, hm, rfl⟩
        cases m with
        | zero => left; omega
        | succ m2 => right; exact ⟨m2, by simpa using hm, by omega⟩
    · rw [emptyIndicesAux, if_neg hc]
      rw [ih (k + 1)]
      constructor
      · rintro ⟨m, hm, rfl⟩
        exact ⟨m + 1, by simpa using hm, by omega⟩
      · rintro ⟨m, hm, rfl⟩
        cases m with
        | zero =>
          simp at hm
          exact absurd hm hc
        | succ m2 => exact ⟨m2, by simpa using hm, by omega⟩

theorem mem_emptyIndices (b : Board) (j : Nat) :
    j ∈ emptyIndices b ↔ b.get? j = some Cell.empty := by
  rw [emptyIndices, mem_emptyIndicesAux]
  constructor
  · rintro ⟨m, hm, rfl⟩
    simpa using hm
  · intro h
    exact ⟨j, h, by omega⟩

theorem emptyIndicesAux_lb (b : Board) (k : Nat) :
    ∀ j ∈ emptyIndicesAux b k, k ≤ j := by
  intro j hj
  rcases (mem_emptyIndicesAux b k j).mp hj with ⟨m, _, rfl⟩
  omega

theorem emptyIndicesAux_sorted (b : Board) (k : Nat) :
    (emptyIndicesAux b k).Sorted (· < ·) := by
  induction b generalizing k with
  | nil => simp [emptyIndicesAux]
  | cons hd tl ih =>
    by_cases hc : hd = Cell.empty
    · rw [emptyIndicesAux, if_pos hc]
      refine List.sorted_cons.mpr ⟨?_, ih (k + 1)⟩
      intro j hj
      have := emptyIndicesAux_lb tl (k + 1) j hj
      omega
    · rw [emptyIndicesAux, if_neg hc]
      exact ih (k + 1)

theorem emptyIndices_sorted (b : Board) : (emptyIndices b).Sorted (· < ·) :=
  emptyIndicesAux_sorted b 0

theorem emptyIndices_eq_nil (b : Board) :
    emptyIndices b = [] ↔ ∀ c ∈ b, c ≠ Cell.empty := by
  constructor
  · intro h c hc hce
    subst hce
    rcases List.get_of_mem hc with ⟨⟨m, hm⟩, hg⟩
    have : m ∈ emptyIndices b := by
      rw [mem_emptyIndices, List.get?_eq_get hm, hg]
    simp [h] at this
  · intro h
    by_contra hne
    rcases List.exists_mem_of_ne_nil _ hne with ⟨j, hj⟩
    rw [mem_emptyIndices] at hj
    exact h Cell.empty (List.get?_mem hj) rfl

/-- On a `<`-sorted list, `find?` returns a hit that no earlier (smaller)
element of the list satisfies. -/
theorem find?_sorted_min {p : Nat → Bool} {n : Nat} {l : List Nat}
    (hs : l.Sorted (· < ·)) (h : l.find? p = some n) :
    ∀ j ∈ l, j < n → p j = false := by
  induction l with
  | nil => simp at h
  | cons hd tl ih =>
    rw [List.sorted_cons] at hs
    intro j hj hjn
    by_cases hp : p hd
    · rw [List.find?_cons_of_pos _ hp] at h
      injection h with h2
      subst h2
      rcases List.mem_cons.mp hj with rfl | hmem
      · omega
      · exact absurd (hs.1 j hmem) (by omega)
    · rw [List.find?_cons_of_neg _ hp] at h
      rcases List.mem_cons.mp hj with rfl | hmem
      · exact Bool.eq_false_iff.mpr hp
      · exact ih hs.2 h j hmem hjn

/-! ### The hypothetical-placement loops restore the board -/

/-- When every index in the list is an empty cell of `b`, the
place-check-restore loop leaves the board exactly as it was and
returns the first index whose hypothetical placement wins. -/
theorem tryPlaceLoop_eq (mark : Cell) (b : Board) (l : List Nat)
    (h : ∀ i ∈ l, b.get? i = some Cell.empty) :
    tryPlaceLoop mark b l =
      (b, l.find? (fun i => (checkWin (b.set i mark)).isSome)) := by
  induction l with
  | nil => simp [tryPlaceLoop]
  | cons i rest ih =>
    have hb : (b.set i mark).set i Cell.empty = b := by
      rw [List.set_set]
      exact set_get?_self b i Cell.empty (h i (by simp))
    have hrest : ∀ j ∈ rest, b.get? j = some Cell.empty :=
      fun j hj => h j (by simp [hj])
    by_cases hw : (checkWin (b.set i mark)).isSome
    · simp [tryPlaceLoop, List.find?, hw, hb]
    · have hw2 : (checkWin (b.set i mark)).isSome = false := by simpa using hw
      simp only [tryPlaceLoop, hb, List.find?, hw2]
      rw [if_neg (by simp)]
      exact ih hrest

/-- The pure value of the index `findBestMove` picks, stated directly
over the input board (used to reason about `findBestMove`, whose
definition threads the mutated-then-restored board). -/
def bestMoveIdx (b : Board) (r : Nat) : Int :=
  let empties := emptyIndices b
  if empties.isEmpty then -1
  else
    match empties.find? (fun i => (checkWin (b.set i Cell.o)).isSome) with
    | some i => (i : Int)
    | none =>
      match empties.find? (fun i => (checkWin (b.set i Cell.x)).isSome) with
      | some i => (i : Int)
      | none =>
        if empties.contains 4 then 4
        else
          let corners := [0, 2, 6, 8].filter (fun c => empties.contains c)
          if corners.isEmpty = false then
            (corners.getD (r % corners.length) 0 : Int)
          else
            let edges := [1, 3, 5, 7].filter (fun e => empties.contains e)
            if edges.isEmpty = false then
              (edges.getD (r % edges.length) 0 : Int)
            else
              (empties.getD (r % empties.length) 0 : Int)

/-- `findBestMove` returns the board it was given (every hypothetical
placement is reverted on every path) together with `bestMoveIdx`. -/
theorem findBestMove_eq (b : Board) (r : Nat) :
    findBestMove b r = (b, bestMoveIdx b r) := by
  have hemp : ∀ i ∈ emptyIndices b, b.get? i = some Cell.empty :=
    fun i hi => (mem_emptyIndices b i).mp hi
  simp only [findBestMove, bestMoveIdx]
  by_cases h0 : (emptyIndices b).isEmpty
  · rw [if_pos h0, if_pos h0]
  · rw [if_neg h0, if_neg h0, tryPlaceLoop_eq Cell.o b _ hemp]
    cases hO : (emptyIndices b).find? (fun i => (checkWin (b.set i Cell.o)).isSome) with
    | some i => rfl
    | none =>
      simp only
      rw [tryPlaceLoop_eq Cell.x b _ hemp]
      cases hX : (emptyIndices b).find? (fun i => (checkWin (b.set i Cell.x)).isSome) with
      | some i => rfl
      | none =>
        simp only
        by_cases h4 : (emptyIndices b).contains 4 = true
        · simp only [if_pos h4]
        · simp only [if_neg h4]
          by_cases hc :
              (([0, 2, 6, 8] : List Nat).filter
                (fun c => (emptyIndices b).contains c)).isEmpty = false
          · simp only [if_pos hc]
          · simp only [if_neg hc]
            by_cases he :
                (([1, 3, 5, 7] : List Nat).filter
                  (fun e => (emptyIndices b).contains e)).isEmpty = false
            · simp only [if_pos he]
            · simp only [if_neg he]

/-! ### `makeMove` outcome lemmas -/

/-- The pure turn toggle performed by `switchPlayer`. -/
def flipPlayer (p : Player) : Player :=
  if p = Player.X then Player.O else Player.X

/-- The state right after `gameState.board[index] = gameState.currentPlayer`
on an accepted move. -/
def placed (s : GameState) (i : Int) : GameState :=
  { s with board := s.board.set i.toNat s.currentPlayer.mark }

/-- A move rejected by the guard of `makeMove` is a strict no-op. -/
theorem makeMove_rejected (s : GameState) (i : Int)
    (h : s.gameActive = false ∨ cellAt s.board i ≠ some Cell.empty) :
    makeMove s i = (s, MoveResult.invalidMove) := by
  unfold makeMove
  rw [if_pos h]

theorem makeMove_win_eq (s : GameState) (i : Int) (line : Nat × Nat × Nat)
    (h1 : s.gameActive = true) (h2 : cellAt s.board i = some Cell.empty)
    (hw : checkWin (placed s i).board = some line) :
    makeMove s i = (handleWin (placed s i), MoveResult.win line) := by
  have h3 : ¬(s.gameActive = false ∨ cellAt s.board i ≠ some Cell.empty) := by
    simp [h1, h2]
  unfold makeMove
  rw [if_neg h3]
  simp only [placed] at hw
  simp only [hw, placed]

theorem makeMove_draw_eq (s : GameState) (i : Int)
    (h1 : s.gameActive = true) (h2 : cellAt s.board i = some Cell.empty)
    (hw : checkWin (placed s i).board = none)
    (hd : checkDraw (placed s i).board = true) :
    makeMove s i = (handleDraw (placed s i), MoveResult.draw) := by
  have h3 : ¬(s.gameActive = false ∨ cellAt s.board i ≠ some Cell.empty) := by
    simp [h1, h2]
  unfold makeMove
  rw [if_neg h3]
  simp only [placed] at hw hd
  simp only [hw, hd, placed, if_true]

theorem makeMove_cont_eq (s : GameState) (i : Int)
    (h1 : s.gameActive = true) (h2 : cellAt s.board i = some Cell.empty)
    (hw : checkWin (placed s i).board = none)
    (hd : checkDraw (placed s i).board = false) :
    makeMove s i = (switchPlayer (placed s i), MoveResult.cont) := by
  have h3 : ¬(s.gameActive = false ∨ cellAt s.board i ≠ some Cell.empty) := by
    simp [h1, h2]
  unfold makeMove
  rw [if_neg h3]
  simp only [placed] at hw hd
  simp only [hw, hd, placed, Bool.false_eq_true, if_false]

/-- Every `makeMove` call is a rejection or exactly one of the three
accepted outcomes. -/
theorem makeMove_cases (s : GameState) (i : Int) :
    makeMove s i = (s, MoveResult.invalidMove) ∨
      (s.gameActive = true ∧ cellAt s.board i = some Cell.empty ∧
        ((∃ line, makeMove s i = (handleWin (placed s i), MoveResult.win line)) ∨
          makeMove s i = (handleDraw (placed s i), MoveResult.draw) ∨
          makeMove s i = (switchPlayer (placed s i), MoveResult.cont))) := by
  by_cases h : s.gameActive = false ∨ cellAt s.board i ≠ some Cell.empty
  · exact Or.inl (makeMove_rejected s i h)
  · push_neg at h
    obtain ⟨ha, hc⟩ := h
    have h1 : s.gameActive = true := by simpa using ha
    refine Or.inr ⟨h1, hc, ?_⟩
    cases hw : checkWin (placed s i).board with
    | some line => exact Or.inl ⟨line, makeMove_win_eq s i line h1 hc hw⟩
    | none =>
      by_cases hd : checkDraw (placed s i).board
      · exact Or.inr (Or.inl (makeMove_draw_eq s i h1 hc hw hd))
      · exact Or.inr (Or.inr (makeMove_cont_eq s i h1 hc hw (by simpa using hd)))

/-! ### Session invariants over reachable states -/

/-- In every state the core API can reach, a set `winner` implies the
game is over. -/
theorem reachable_winner_inv {s : GameState} (h : Reachable s) :
    s.winner ≠ none → s.gameActive = false := by
  induction h with
  | init => intro hw; exact absurd rfl hw
  | move s0 i hr ih =>
    rcases makeMove_cases s0 i with hcase | ⟨h1, _, hcase⟩
    · rw [hcase]
      exact ih
    · rcases hcase with ⟨line, he⟩ | he | he
      · rw [he]
        intro _
        rfl
      · rw [he]
        intro _
        rfl
      · rw [he]
        intro hw
        have hw0 : s0.winner ≠ none := by
          simpa [switchPlayer, placed] using hw
        have hact := ih hw0
        rw [h1] at hact
        exact absurd hact (by simp)
  | reset s0 hr ih => intro hw; exact absurd rfl hw

theorem flipPlayer_flipPlayer (p : Player) : flipPlayer (flipPlayer p) = p := by
  cases p <;> rfl

/-- An accepted non-terminal move toggles the player exactly once. -/
theorem makeMove_cont_currentPlayer {s t : GameState} {i : Int}
    (h : makeMove s i = (t, MoveResult.cont)) :
    t.currentPlayer = flipPlayer s.currentPlayer := by
  rcases makeMove_cases s i with hc | ⟨_, _, ⟨line, hc⟩ | hc | hc⟩ <;> rw [hc] at h
  · simp at h
  · simp at h
  · simp at h
  · have ht : t = switchPlayer (placed s i) := by
      have := congrArg Prod.fst h
      simpa using this.symm
    rw [ht]
    rfl

/-- A rejected or terminal move never toggles the player. -/
theorem makeMove_not_cont_currentPlayer {s t : GameState} {i : Int} {r : MoveResult}
    (h : makeMove s i = (t, r)) (hr : r ≠ MoveResult.cont) :
    t.currentPlayer = s.currentPlayer := by
  rcases makeMove_cases s i with hc | ⟨_, _, ⟨line, hc⟩ | hc | hc⟩ <;> rw [hc] at h
  · have ht : s = t := congrArg Prod.fst h
    rw [← ht]
  · have ht : handleWin (placed s i) = t := congrArg Prod.fst h
    rw [← ht]
    rfl
  · have ht : handleDraw (placed s i) = t := congrArg Prod.fst h
    rw [← ht]
    rfl
  · have hres : MoveResult.cont = r := congrArg Prod.snd h
    exact absurd hres.symm hr

/-- Running only accepted, `cont`-returning moves flips the player once
per move. -/
theorem contRun_currentPlayer (ms : List Int) :
    ∀ s s2, contRun s ms = some s2 →
      s2.currentPlayer =
        if ms.length % 2 = 0 then s.currentPlayer else flipPlayer s.currentPlayer := by
  induction ms with
  | nil =>
    intro s s2 h
    simp only [contRun, Option.some.injEq] at h
    subst h
    simp
  | cons i rest ih =>
    intro s s2 h
    simp only [contRun] at h
    rcases hm : makeMove s i with ⟨s1, r⟩
    rw [hm] at h
    cases r with
    | cont =>
      have hcp := makeMove_cont_currentPlayer hm
      have hrec := ih s1 s2 h
      rw [hrec, hcp]
      by_cases hpar : rest.length % 2 = 0
      · rw [if_pos hpar, if_neg (by simp; omega)]
      · rw [if_neg hpar, if_pos (by simp; omega), flipPlayer_flipPlayer]
    | invalidMove => simp at h
    | win line => simp at h
    | draw => simp at h

/-! ### Claim theorems -/

/-- C3: for every session and every out-of-range index (`index < 0` or
`index > 8`), or when the session is inactive, or when the addressed
cell is non-empty, `makeMove` is a strict no-op (the whole state is
returned unchanged) and signals `InvalidMove` instead of applying the
move. -/
theorem makeMove_invalid_noop (s : GameState) (i : Int) (hlen : s.board.length = 9)
    (h : i < 0 ∨ 8 < i ∨ s.gameActive = false ∨ cellAt s.board i ≠ some Cell.empty) :
    makeMove s i = (s, MoveResult.invalidMove) := by
  apply makeMove_rejected
  rcases h with h | h | h | h
  · right
    rw [cellAt, if_neg (by omega)]
    simp
  · right
    rw [cellAt]
    by_cases h0 : (0 : Int) ≤ i
    · rw [if_pos h0, List.get?_eq_none.mpr (by rw [hlen]; omega)]
      simp
    · rw [if_neg h0]
      simp
  · left
    exact h
  · right
    exact h

theorem makeMove_invalid_noop_witness :
    makeMove initialState (-1) = (initialState, MoveResult.invalidMove) :=
  makeMove_invalid_noop initialState (-1) (by decide) (Or.inl (by decide))

/-- C6: in every reachable session state the invariant holds: a set
`winner` implies `gameActive = false`; once `gameActive` is `false`,
every `makeMove` call is a strict no-op signalling `InvalidMove` (so
the board is never mutated and `gameActive` can never flip back to
`true` through moves — only `resetGameState` restores it). -/
theorem session_invariant :
    (∀ s : GameState, Reachable s → s.winner ≠ none → s.gameActive = false) ∧
    (∀ (s : GameState) (i : Int), s.gameActive = false →
      makeMove s i = (s, MoveResult.invalidMove)) ∧
    (∀ (s : GameState) (i : Int), s.gameActive = false →
      (makeMove s i).1.gameActive = false ∧ (makeMove s i).1.board = s.board) := by
  refine ⟨?_, ?_, ?_⟩
  · intro s hs
    exact reachable_winner_inv hs
  · intro s i hact
    exact makeMove_rejected s i (Or.inl hact)
  · intro s i hact
    rw [makeMove_rejected s i (Or.inl hact)]
    exact ⟨hact, rfl⟩

theorem session_invariant_witness :
    makeMove (handleDraw initialState) 0 = (handleDraw initialState, MoveResult.invalidMove) :=
  session_invariant.2.1 (handleDraw initialState) 0 rfl

/-- C7: along any run of accepted, non-terminal (`cont`-returning)
moves from the initial state the current player strictly alternates
X, O, X, O, ...; an accepted `cont` move toggles the player exactly
once, and a rejected or terminal move never toggles it. -/
theorem currentPlayer_alternation :
    (∀ (ms : List Int) (s2 : GameState), contRun initialState ms = some s2 →
      s2.currentPlayer = if ms.length % 2 = 0 then Player.X else Player.O) ∧
    (∀ (s t : GameState) (i : Int), makeMove s i = (t, MoveResult.cont) →
      t.currentPlayer = flipPlayer s.currentPlayer) ∧
    (∀ (s t : GameState) (i : Int) (r : MoveResult), makeMove s i = (t, r) →
      r ≠ MoveResult.cont → t.currentPlayer = s.currentPlayer) := by
  refine ⟨?_, ?_, ?_⟩
  · intro ms s2 h
    rw [contRun_currentPlayer ms initialState s2 h]
    by_cases hp : ms.length % 2 = 0
    · rw [if_pos hp, if_pos hp]
      rfl
    · rw [if_neg hp, if_neg hp]
      rfl
  · intro s t i h
    exact makeMove_cont_currentPlayer h
  · intro s t i r h hr
    exact makeMove_not_cont_currentPlayer h hr

theorem currentPlayer_alternation_witness :
    ((makeMove (makeMove initialState 0).1 1).1).currentPlayer =
      if ([0, 1] : List Int).length % 2 = 0 then Player.X else Player.O :=
  currentPlayer_alternation.1 [0, 1] ((makeMove (makeMove initialState 0).1 1).1) (by decide)

/-- C8: `resetGameState` reinitializes any session, whatever its prior
state, to the initial configuration: all 9 cells empty, X to move,
game active, no winner. -/
theorem reset_restores_initial (s : GameState) :
    (resetGameState s).board = List.replicate 9 Cell.empty ∧
    (resetGameState s).currentPlayer = Player.X ∧
    (resetGameState s).gameActive = true ∧
    (resetGameState s).winner = none :=
  ⟨rfl, rfl, rfl, rfl⟩

/-- C9: on a board with no empty cell, `findBestMove` returns the
sentinel `-1` ("no move") and leaves the board unchanged. -/
theorem findBestMove_full_board (b : Board) (r : Nat)
    (h : ∀ c ∈ b, c ≠ Cell.empty) :
    findBestMove b r = (b, -1) := by
  have he : emptyIndices b = [] := (emptyIndices_eq_nil b).mpr h
  simp only [findBestMove]
  rw [if_pos (by rw [he]; rfl)]

theorem findBestMove_full_board_witness :
    findBestMove (List.replicate 9 Cell.x) 0 = (List.replicate 9 Cell.x, -1) :=
  findBestMove_full_board (List.replicate 9 Cell.x) 0 (by decide)

/-- C1: on a session with `gameActive = true` and an empty cell at
`index`, `makeMove` writes the current player's mark at `index` and
then: if `checkWin` finds a line it deactivates the game, records the
winner and signals `Win(line)` (win detection runs before draw
detection, with no draw-side condition); otherwise if the board is
full it deactivates the game and signals `Draw`; otherwise it toggles
the current player and signals `Continue`. -/
theorem makeMove_success_spec (s : GameState) (i : Int)
    (h1 : s.gameActive = true) (h2 : cellAt s.board i = some Cell.empty) :
    (makeMove s i).1.board = s.board.set i.toNat s.currentPlayer.mark ∧
    (∀ line, checkWin (s.board.set i.toNat s.currentPlayer.mark) = some line →
      makeMove s i =
        ({ s with board := s.board.set i.toNat s.currentPlayer.mark,
                  gameActive := false,
                  winner := some s.currentPlayer }, MoveResult.win line)) ∧
    (checkWin (s.board.set i.toNat s.currentPlayer.mark) = none →
      checkDraw (s.board.set i.toNat s.currentPlayer.mark) = true →
      makeMove s i =
        ({ s with board := s.board.set i.toNat s.currentPlayer.mark,
                  gameActive := false }, MoveResult.draw)) ∧
    (checkWin (s.board.set i.toNat s.currentPlayer.mark) = none →
      checkDraw (s.board.set i.toNat s.currentPlayer.mark) = false →
      makeMove s i =
        ({ s with board := s.board.set i.toNat s.currentPlayer.mark,
                  currentPlayer := flipPlayer s.currentPlayer }, MoveResult.cont)) := by
  refine ⟨?_, ?_, ?_, ?_⟩
  · rcases hw : checkWin (placed s i).board with _ | line
    · by_cases hd : checkDraw (placed s i).board
      · rw [makeMove_draw_eq s i h1 h2 hw hd]
        rfl
      · rw [makeMove_cont_eq s i h1 h2 hw (by simpa using hd)]
        rfl
    · rw [makeMove_win_eq s i line h1 h2 hw]
      rfl
  · intro line hw
    exact makeMove_win_eq s i line h1 h2 hw
  · intro hw hd
    exact makeMove_draw_eq s i h1 h2 hw hd
  · intro hw hd
    exact makeMove_cont_eq s i h1 h2 hw hd

theorem makeMove_success_spec_witness :
    makeMove initialState 0 =
      ({ initialState with
          board := (List.replicate 9 Cell.empty).set 0 Cell.x,
          currentPlayer := Player.O }, MoveResult.cont) :=
  (makeMove_success_spec initialState 0 rfl rfl).2.2.2 rfl rfl

/-- `comboWins` read as a proposition: the three cells of the triple
are identical and non-empty. -/
theorem comboWins_iff (b : Board) (t : Nat × Nat × Nat) :
    comboWins b t = true ↔
      (b.getD t.1 Cell.empty ≠ Cell.empty ∧
       b.getD t.1 Cell.empty = b.getD t.2.1 Cell.empty ∧
       b.getD t.1 Cell.empty = b.getD t.2.2 Cell.empty) := by
  simp [comboWins, and_assoc]

/-- C2: `checkWin` returns a line iff one of the 8 fixed triples has
three identical non-empty cells, and the returned line is the first
matching one in the fixed enumeration order (rows top-to-bottom, then
columns left-to-right, then diagonal 0-4-8, then diagonal 2-4-6);
otherwise it returns `none`. -/
theorem checkWin_spec (b : Board) :
    ((checkWin b).isSome = true ↔
      ∃ t ∈ WINNING_COMBINATIONS,
        b.getD t.1 Cell.empty ≠ Cell.empty ∧
        b.getD t.1 Cell.empty = b.getD t.2.1 Cell.empty ∧
        b.getD t.1 Cell.empty = b.getD t.2.2 Cell.empty) ∧
    (∀ t, checkWin b = some t →
      comboWins b t = true ∧
      ∃ pre post, WINNING_COMBINATIONS = pre ++ t :: post ∧
        ∀ u ∈ pre, comboWins b u = false) ∧
    WINNING_COMBINATIONS =
      [(0, 1, 2), (3, 4, 5), (6, 7, 8), (0, 3, 6), (1, 4, 7), (2, 5, 8),
       (0, 4, 8), (2, 4, 6)] := by
  refine ⟨?_, ?_, rfl⟩
  · rw [checkWin, List.find?_isSome]
    constructor
    · rintro ⟨t, ht, hp⟩
      exact ⟨t, ht, (comboWins_iff b t).mp hp⟩
    · rintro ⟨t, ht, hp⟩
      exact ⟨t, ht, (comboWins_iff b t).mpr hp⟩
  · intro t ht
    rw [checkWin] at ht
    rcases List.find?_eq_some.mp ht with ⟨hpt, pre, post, heq, hpre⟩
    exact ⟨hpt, pre, post, heq, fun u hu => by simpa using hpre u hu⟩

theorem checkWin_spec_witness :
    comboWins [Cell.x, Cell.x, Cell.x, Cell.o, Cell.o, Cell.empty,
               Cell.empty, Cell.empty, Cell.empty] (0, 1, 2) = true ∧
    ∃ pre post,
      WINNING_COMBINATIONS = pre ++ (0, 1, 2) :: post ∧
      ∀ u ∈ pre,
        comboWins [Cell.x, Cell.x, Cell.x, Cell.o, Cell.o, Cell.empty,
                   Cell.empty, Cell.empty, Cell.empty] u = false :=
  (checkWin_spec [Cell.x, Cell.x, Cell.x, Cell.o, Cell.o, Cell.empty,
                  Cell.empty, Cell.empty, Cell.empty]).2.1 (0, 1, 2) (by decide)

/-- C10: an accepted move that fills the board without completing a
line (result `Draw`) deactivates the game but leaves `winner` at
`none` (the draw handler never assigns it), while a winning move sets
`winner` to the mover — so the two terminal states are distinguishable
by whether `winner` is set. -/
theorem draw_leaves_winner_none (s s2 : GameState) (i : Int) (h : Reachable s) :
    (makeMove s i = (s2, MoveResult.draw) → s2.winner = none ∧ s2.gameActive = false) ∧
    (∀ line, makeMove s i = (s2, MoveResult.win line) → s2.winner = some s.currentPlayer) := by
  constructor
  · intro hm
    rcases makeMove_cases s i with hc | ⟨h1, _, ⟨line, hc⟩ | hc | hc⟩ <;> rw [hc] at hm
    · simp at hm
    · simp at hm
    · have hs2 : handleDraw (placed s i) = s2 := congrArg Prod.fst hm
      rw [← hs2]
      refine ⟨?_, rfl⟩
      show s.winner = none
      by_contra hw
      have hact := reachable_winner_inv h hw
      rw [h1] at hact
      exact absurd hact (by simp)
    · simp at hm
  · intro line hm
    rcases makeMove_cases s i with hc | ⟨h1, _, ⟨line2, hc⟩ | hc | hc⟩ <;> rw [hc] at hm
    · simp at hm
    · have hs2 : handleWin (placed s i) = s2 := congrArg Prod.fst hm
      rw [← hs2]
      rfl
    · simp at hm
    · simp at hm

/-- A concrete drawn game: X 0, O 2, X 1, O 3, X 5, O 4, X 6, O 7
leaves only cell 8 open and no line completable by X's ninth move. -/
def sDraw8 : GameState :=
  (makeMove (makeMove (makeMove (makeMove (makeMove (makeMove (makeMove
    (makeMove initialState 0).1 2).1 1).1 3).1 5).1 4).1 6).1 7).1

theorem sDraw8_reachable : Reachable sDraw8 :=
  Reachable.move _ 7 (Reachable.move _ 6 (Reachable.move _ 4 (Reachable.move _ 5
    (Reachable.move _ 3 (Reachable.move _ 1 (Reachable.move _ 2
      (Reachable.move _ 0 Reachable.init)))))))

theorem draw_leaves_winner_none_witness :
    (makeMove sDraw8 8).1.winner = none ∧ (makeMove sDraw8 8).1.gameActive = false :=
  (draw_leaves_winner_none sDraw8 ((makeMove sDraw8 8).1) 8 sDraw8_reachable).1 (by decide)

/-! ### Opponent-policy helper predicates and step lemmas -/

/-- The cell at index `i` of `b` is in range and empty. -/
abbrev emptyAt (b : Board) (i : Nat) : Prop :=
  b.get? i = some Cell.empty

/-- Hypothetically placing mark `m` at index `i` makes `checkWin`
report a win. -/
abbrev winAt (b : Board) (m : Cell) (i : Nat) : Prop :=
  (checkWin (b.set i m)).isSome = true

theorem contains_emptyIndices (b : Board) (j : Nat) :
    (emptyIndices b).contains j = true ↔ emptyAt b j := by
  constructor
  · intro h
    exact (mem_emptyIndices b j).mp (by simpa using h)
  · intro h
    simpa using (mem_emptyIndices b j).mpr h

theorem bestMoveIdx_nil (b : Board) (r : Nat) (h0 : emptyIndices b = []) :
    bestMoveIdx b r = -1 := by
  simp only [bestMoveIdx]
  rw [if_pos (by simpa using h0)]

theorem bestMoveIdx_winO (b : Board) (r : Nat) (i : Nat)
    (h0 : emptyIndices b ≠ [])
    (h : (emptyIndices b).find? (fun j => (checkWin (b.set j Cell.o)).isSome) = some i) :
    bestMoveIdx b r = (i : Int) := by
  simp only [bestMoveIdx]
  rw [if_neg (by simpa using h0)]
  simp only [h]

theorem bestMoveIdx_blockX (b : Board) (r : Nat) (i : Nat)
    (h0 : emptyIndices b ≠ [])
    (hO : (emptyIndices b).find? (fun j => (checkWin (b.set j Cell.o)).isSome) = none)
    (h : (emptyIndices b).find? (fun j => (checkWin (b.set j Cell.x)).isSome) = some i) :
    bestMoveIdx b r = (i : Int) := by
  simp only [bestMoveIdx]
  rw [if_neg (by simpa using h0)]
  simp only [hO, h]

theorem bestMoveIdx_center (b : Board) (r : Nat)
    (h0 : emptyIndices b ≠ [])
    (hO : (emptyIndices b).find? (fun j => (checkWin (b.set j Cell.o)).isSome) = none)
    (hX : (emptyIndices b).find? (fun j => (checkWin (b.set j Cell.x)).isSome) = none)
    (h4 : (emptyIndices b).contains 4 = true) :
    bestMoveIdx b r = 4 := by
  simp only [bestMoveIdx]
  rw [if_neg (by simpa using h0)]
  simp only [hO, hX, h4, if_true]

theorem bestMoveIdx_corner (b : Board) (r : Nat)
    (h0 : emptyIndices b ≠ [])
    (hO : (emptyIndices b).find? (fun j => (checkWin (b.set j Cell.o)).isSome) = none)
    (hX : (emptyIndices b).find? (fun j => (checkWin (b.set j Cell.x)).isSome) = none)
    (h4 : (emptyIndices b).contains 4 = false)
    (hc : ([0, 2, 6, 8] : List Nat).filter (fun c => (emptyIndices b).contains c) ≠ []) :
    bestMoveIdx b r =
      ((([0, 2, 6, 8] : List Nat).filter (fun c => (emptyIndices b).contains c)).getD
        (r % (([0, 2, 6, 8] : List Nat).filter
          (fun c => (emptyIndices b).contains c)).length) 0 : Int) := by
  simp only [bestMoveIdx]
  rw [if_neg (by simpa using h0)]
  simp only [hO, hX, h4, Bool.false_eq_true, if_false]
  rw [if_pos (by simpa using hc)]

theorem bestMoveIdx_edge (b : Board) (r : Nat)
    (h0 : emptyIndices b ≠ [])
    (hO : (emptyIndices b).find? (fun j => (checkWin (b.set j Cell.o)).isSome) = none)
    (hX : (emptyIndices b).find? (fun j => (checkWin (b.set j Cell.x)).isSome) = none)
    (h4 : (emptyIndices b).contains 4 = false)
    (hc : ([0, 2, 6, 8] : List Nat).filter (fun c => (emptyIndices b).contains c) = [])
    (he : ([1, 3, 5, 7] : List Nat).filter (fun e => (emptyIndices b).contains e) ≠ []) :
    bestMoveIdx b r =
      ((([1, 3, 5, 7] : List Nat).filter (fun e => (emptyIndices b).contains e)).getD
        (r % (([1, 3, 5, 7] : List Nat).filter
          (fun e => (emptyIndices b).contains e)).length) 0 : Int) := by
  simp only [bestMoveIdx]
  rw [if_neg (by simpa using h0)]
  simp only [hO, hX, h4, Bool.false_eq_true, if_false]
  rw [if_neg (by rw [hc]; simp), if_pos (by simpa using he)]

theorem bestMoveIdx_fallback (b : Board) (r : Nat)
    (h0 : emptyIndices b ≠ [])
    (hO : (emptyIndices b).find? (fun j => (checkWin (b.set j Cell.o)).isSome) = none)
    (hX : (emptyIndices b).find? (fun j => (checkWin (b.set j Cell.x)).isSome) = none)
    (h4 : (emptyIndices b).contains 4 = false)
    (hc : ([0, 2, 6, 8] : List Nat).filter (fun c => (emptyIndices b).contains c) = [])
    (he : ([1, 3, 5, 7] : List Nat).filter (fun e => (emptyIndices b).contains e) = []) :
    bestMoveIdx b r =
      ((emptyIndices b).getD (r % (emptyIndices b).length) 0 : Int) := by
  simp only [bestMoveIdx]
  rw [if_neg (by simpa using h0)]
  simp only [hO, hX, h4, Bool.false_eq_true, if_false]
  rw [if_neg (by rw [hc]; simp), if_neg (by rw [he]; simp)]

/-- C5: `findBestMove` hands back exactly the board it was given —
every hypothetical placement made during the win/block probes is
reverted on every path, early returns included — and whenever it
returns a non-negative index, that index addresses an empty cell. -/
theorem findBestMove_pure (b : Board) (r : Nat) :
    (findBestMove b r).1 = b ∧
    ∀ n : Nat, (findBestMove b r).2 = (n : Int) → emptyAt b n := by
  refine ⟨by rw [findBestMove_eq], ?_⟩
  intro n hn
  rw [findBestMove_eq] at hn
  have hn2 : bestMoveIdx b r = (n : Int) := hn
  by_cases h0 : emptyIndices b = []
  · rw [bestMoveIdx_nil b r h0] at hn2
    omega
  · cases hO : (emptyIndices b).find? (fun j => (checkWin (b.set j Cell.o)).isSome) with
    | some i =>
      rw [bestMoveIdx_winO b r i h0 hO] at hn2
      have : i = n := by exact_mod_cast hn2
      subst this
      exact (mem_emptyIndices b i).mp (List.mem_of_find?_eq_some hO)
    | none =>
      cases hX : (emptyIndices b).find? (fun j => (checkWin (b.set j Cell.x)).isSome) with
      | some i =>
        rw [bestMoveIdx_blockX b r i h0 hO hX] at hn2
        have : i = n := by exact_mod_cast hn2
        subst this
        exact (mem_emptyIndices b i).mp (List.mem_of_find?_eq_some hX)
      | none =>
        by_cases h4 : (emptyIndices b).contains 4 = true
        · rw [bestMoveIdx_center b r h0 hO hX h4] at hn2
          have : n = 4 := by omega
          subst this
          exact (contains_emptyIndices b 4).mp h4
        · have h4f : (emptyIndices b).contains 4 = false := by simpa using h4
          by_cases hc :
              ([0, 2, 6, 8] : List Nat).filter (fun c => (emptyIndices b).contains c) = []
          · by_cases he :
                ([1, 3, 5, 7] : List Nat).filter (fun e => (emptyIndices b).contains e) = []
            · rw [bestMoveIdx_fallback b r h0 hO hX h4f hc he] at hn2
              have hmem := getD_mod_mem (emptyIndices b) h0 r
              have : (emptyIndices b).getD (r % (emptyIndices b).length) 0 = n := by
                exact_mod_cast hn2
              rw [this] at hmem
              exact (mem_emptyIndices b n).mp hmem
            · rw [bestMoveIdx_edge b r h0 hO hX h4f hc he] at hn2
              have hmem := getD_mod_mem _ he r
              have heq :
                  (([1, 3, 5, 7] : List Nat).filter
                    (fun e => (emptyIndices b).contains e)).getD
                    (r % (([1, 3, 5, 7] : List Nat).filter
                      (fun e => (emptyIndices b).contains e)).length) 0 = n := by
                exact_mod_cast hn2
              rw [heq] at hmem
              exact (contains_emptyIndices b n).mp (List.of_mem_filter hmem)
          · rw [bestMoveIdx_corner b r h0 hO hX h4f hc] at hn2
            have hmem := getD_mod_mem _ hc r
            have heq :
                (([0, 2, 6, 8] : List Nat).filter
                  (fun c => (emptyIndices b).contains c)).getD
                  (r % (([0, 2, 6, 8] : List Nat).filter
                    (fun c => (emptyIndices b).contains c)).length) 0 = n := by
              exact_mod_cast hn2
            rw [heq] at hmem
            exact (contains_emptyIndices b n).mp (List.of_mem_filter hmem)

theorem findBestMove_pure_witness :
    (List.replicate 9 Cell.empty : Board).get? 4 = some Cell.empty :=
  (findBestMove_pure (List.replicate 9 Cell.empty) 0).2 4 (by decide)

/-- C4: on a board with at least one empty cell, `findBestMove` follows
the fixed priority order, first match wins: (1) the lowest empty index
whose hypothetical `O` placement wins per `checkWin`; (2) else the
lowest empty index whose hypothetical `X` placement would win (block);
(3) else the center 4 if empty; (4) else an empty corner from
{0,2,6,8}; (5) else an empty edge from {1,3,5,7}; (6) else some empty
index (the random draws ranging over the stated candidate sets). -/
theorem findBestMove_priority (b : Board) (r : Nat) (hne : ∃ i, emptyAt b i) :
    (∀ i, emptyAt b i → winAt b Cell.o i →
      ∃ n : Nat, (findBestMove b r).2 = (n : Int) ∧ emptyAt b n ∧ winAt b Cell.o n ∧
        ∀ j : Nat, j < n → emptyAt b j → ¬ winAt b Cell.o j) ∧
    ((∀ i, emptyAt b i → ¬ winAt b Cell.o i) →
      ∀ i, emptyAt b i → winAt b Cell.x i →
        ∃ n : Nat, (findBestMove b r).2 = (n : Int) ∧ emptyAt b n ∧ winAt b Cell.x n ∧
          ∀ j : Nat, j < n → emptyAt b j → ¬ winAt b Cell.x j) ∧
    ((∀ i, emptyAt b i → ¬ winAt b Cell.o i) → (∀ i, emptyAt b i → ¬ winAt b Cell.x i) →
      emptyAt b 4 → (findBestMove b r).2 = 4) ∧
    ((∀ i, emptyAt b i → ¬ winAt b Cell.o i) → (∀ i, emptyAt b i → ¬ winAt b Cell.x i) →
      ¬ emptyAt b 4 → (∃ c ∈ ([0, 2, 6, 8] : List Nat), emptyAt b c) →
      ∃ n : Nat, (findBestMove b r).2 = (n : Int) ∧ n ∈ ([0, 2, 6, 8] : List Nat) ∧ emptyAt b n) ∧
    ((∀ i, emptyAt b i → ¬ winAt b Cell.o i) → (∀ i, emptyAt b i → ¬ winAt b Cell.x i) →
      ¬ emptyAt b 4 → (∀ c ∈ ([0, 2, 6, 8] : List Nat), ¬ emptyAt b c) →
      (∃ e ∈ ([1, 3, 5, 7] : List Nat), emptyAt b e) →
      ∃ n : Nat, (findBestMove b r).2 = (n : Int) ∧ n ∈ ([1, 3, 5, 7] : List Nat) ∧ emptyAt b n) ∧
    ((∀ i, emptyAt b i → ¬ winAt b Cell.o i) → (∀ i, emptyAt b i → ¬ winAt b Cell.x i) →
      ¬ emptyAt b 4 → (∀ c ∈ ([0, 2, 6, 8] : List Nat), ¬ emptyAt b c) →
      (∀ e ∈ ([1, 3, 5, 7] : List Nat), ¬ emptyAt b e) →
      ∃ n : Nat, (findBestMove b r).2 = (n : Int) ∧ emptyAt b n) := by
  have h0 : emptyIndices b ≠ [] := by
    rcases hne with ⟨i, hi⟩
    intro hnil
    have hmem : i ∈ emptyIndices b := (mem_emptyIndices b i).mpr hi
    rw [hnil] at hmem
    simp at hmem
  have hsnd : (findBestMove b r).2 = bestMoveIdx b r := by rw [findBestMove_eq]
  have hOnone : (∀ i, emptyAt b i → ¬ winAt b Cell.o i) →
      (emptyIndices b).find? (fun j => (checkWin (b.set j Cell.o)).isSome) = none := by
    intro hno
    rw [List.find?_eq_none]
    intro x hx
    exact hno x ((mem_emptyIndices b x).mp hx)
  have hXnone : (∀ i, emptyAt b i → ¬ winAt b Cell.x i) →
      (emptyIndices b).find? (fun j => (checkWin (b.set j Cell.x)).isSome) = none := by
    intro hnx
    rw [List.find?_eq_none]
    intro x hx
    exact hnx x ((mem_emptyIndices b x).mp hx)
  have hcontF : (¬ emptyAt b 4) → (emptyIndices b).contains 4 = false := by
    intro hn4
    have h2 : ¬(emptyIndices b).contains 4 = true :=
      fun hcc => hn4 ((contains_emptyIndices b 4).mp hcc)
    simpa using h2
  refine ⟨?_, ?_, ?_, ?_, ?_, ?_⟩
  · intro i hi hw
    have hs : ((emptyIndices b).find? (fun j => (checkWin (b.set j Cell.o)).isSome)).isSome :=
      List.find?_isSome.mpr ⟨i, (mem_emptyIndices b i).mpr hi, hw⟩
    rcases Option.isSome_iff_exists.mp hs with ⟨n, hfind⟩
    refine ⟨n, ?_, ?_, ?_, ?_⟩
    · rw [hsnd]
      exact bestMoveIdx_winO b r n h0 hfind
    · exact (mem_emptyIndices b n).mp (List.mem_of_find?_eq_some hfind)
    · exact List.find?_some (p := fun j => (checkWin (b.set j Cell.o)).isSome) hfind
    · intro j hj hje
      have hpf : (checkWin (b.set j Cell.o)).isSome = false :=
        find?_sorted_min (emptyIndices_sorted b) hfind j ((mem_emptyIndices b j).mpr hje) hj
      intro hcon
      have hcon2 : (checkWin (b.set j Cell.o)).isSome = true := hcon
      rw [hpf] at hcon2
      simp at hcon2
  · intro hno i hi hw
    have hs : ((emptyIndices b).find? (fun j => (checkWin (b.set j Cell.x)).isSome)).isSome :=
      List.find?_isSome.mpr ⟨i, (mem_emptyIndices b i).mpr hi, hw⟩
    rcases Option.isSome_iff_exists.mp hs with ⟨n, hfind⟩
    refine ⟨n, ?_, ?_, ?_, ?_⟩
    · rw [hsnd]
      exact bestMoveIdx_blockX b r n h0 (hOnone hno) hfind
    · exact (mem_emptyIndices b n).mp (List.mem_of_find?_eq_some hfind)
    · exact List.find?_some (p := fun j => (checkWin (b.set j Cell.x)).isSome) hfind
    · intro j hj hje
      have hpf : (checkWin (b.set j Cell.x)).isSome = false :=
        find?_sorted_min (emptyIndices_sorted b) hfind j ((mem_emptyIndices b j).mpr hje) hj
      intro hcon
      have hcon2 : (checkWin (b.set j Cell.x)).isSome = true := hcon
      rw [hpf] at hcon2
      simp at hcon2
  · intro hno hnx h4
    rw [hsnd]
    exact bestMoveIdx_center b r h0 (hOnone hno) (hXnone hnx)
      ((contains_emptyIndices b 4).mpr h4)
  · intro hno hnx hn4 hex
    rcases hex with ⟨c, hcmem, hce⟩
    have hcne : ([0, 2, 6, 8] : List Nat).filter (fun c2 => (emptyIndices b).contains c2) ≠ [] :=
      List.ne_nil_of_mem
        (List.mem_filter.mpr ⟨hcmem, (contains_emptyIndices b c).mpr hce⟩)
    have hmem := getD_mod_mem _ hcne r
    refine ⟨_, ?_, List.mem_of_mem_filter hmem,
      (contains_emptyIndices b _).mp (List.of_mem_filter hmem)⟩
    rw [hsnd]
    exact bestMoveIdx_corner b r h0 (hOnone hno) (hXnone hnx) (hcontF hn4) hcne
  · intro hno hnx hn4 hnc hex
    have hcnil :
        ([0, 2, 6, 8] : List Nat).filter (fun c2 => (emptyIndices b).contains c2) = [] :=
      List.filter_eq_nil_iff.mpr
        (fun a ha hca => hnc a ha ((contains_emptyIndices b a).mp hca))
    rcases hex with ⟨e, hemem, hee⟩
    have hene : ([1, 3, 5, 7] : List Nat).filter (fun e2 => (emptyIndices b).contains e2) ≠ [] :=
      List.ne_nil_of_mem
        (List.mem_filter.mpr ⟨hemem, (contains_emptyIndices b e).mpr hee⟩)
    have hmem := getD_mod_mem _ hene r
    refine ⟨_, ?_, List.mem_of_mem_filter hmem,
      (contains_emptyIndices b _).mp (List.of_mem_filter hmem)⟩
    rw [hsnd]
    exact bestMoveIdx_edge b r h0 (hOnone hno) (hXnone hnx) (hcontF hn4) hcnil hene
  · intro hno hnx hn4 hnc hnee
    have hcnil :
        ([0, 2, 6, 8] : List Nat).filter (fun c2 => (emptyIndices b).contains c2) = [] :=
      List.filter_eq_nil_iff.mpr
        (fun a ha hca => hnc a ha ((contains_emptyIndices b a).mp hca))
    have henil :
        ([1, 3, 5, 7] : List Nat).filter (fun e2 => (emptyIndices b).contains e2) = [] :=
      List.filter_eq_nil_iff.mpr
        (fun a ha hea => hnee a ha ((contains_emptyIndices b a).mp hea))
    have hmem := getD_mod_mem _ h0 r
    refine ⟨_, ?_, (mem_emptyIndices b _).mp hmem⟩
    rw [hsnd]
    exact bestMoveIdx_fallback b r h0 (hOnone hno) (hXnone hnx) (hcontF hn4) hcnil henil

theorem findBestMove_priority_witness :
    ∃ n : Nat, (findBestMove [Cell.o, Cell.o, Cell.empty, Cell.x, Cell.x, Cell.empty,
        Cell.empty, Cell.empty, Cell.empty] 0).2 = (n : Int) ∧
      emptyAt [Cell.o, Cell.o, Cell.empty, Cell.x, Cell.x, Cell.empty,
        Cell.empty, Cell.empty, Cell.empty] n ∧
      winAt [Cell.o, Cell.o, Cell.empty, Cell.x, Cell.x, Cell.empty,
        Cell.empty, Cell.empty, Cell.empty] Cell.o n ∧
      ∀ j : Nat, j < n →
        emptyAt [Cell.o, Cell.o, Cell.empty, Cell.x, Cell.x, Cell.empty,
          Cell.empty, Cell.empty, Cell.empty] j →
        ¬ winAt [Cell.o, Cell.o, Cell.empty, Cell.x, Cell.x, Cell.empty,
          Cell.empty, Cell.empty, Cell.empty] Cell.o j :=
  (findBestMove_priority [Cell.o, Cell.o, Cell.empty, Cell.x, Cell.x, Cell.empty,
      Cell.empty, Cell.empty, Cell.empty] 0 ⟨2, by decide⟩).1
    2 (by decide) (by decide)
